import Mathlib

/-!
# Build/CI callback controller

A shallow embedding of `agent-manager-service/controllers/build_ci_controller.go`:
the payload type `BuildCallbackPayload`, the helper `writeJSONResponse` and the
handler `HandleBuildCallback`, together with models of the library calls the
handler is built from (`encoding/json` decoding into the payload struct,
`uuid.UUID.UnmarshalText`, `json.Encoder.Encode`, the `http.ResponseWriter`
calls).

Go strings and byte slices are sequences of bytes; they are modelled as lists of
natural numbers below 256.
-/

namespace BuildCI

/-! ## Bytes and UTF-8 -/

/-- A Go `[]byte` or `string`: a sequence of bytes. -/
abbrev Bytes := List Nat

/-- The Unicode replacement character, `utf8.RuneError`. -/
def runeError : Nat := 0xFFFD

/-- Go `utf8.EncodeRune`: the UTF-8 encoding of a rune; surrogates and values
past `0x10FFFF` are encoded as the replacement character. -/
def encodeRune (r : Nat) : Bytes :=
  if r ≤ 0x7F then [r]
  else if r ≤ 0x7FF then [0xC0 ||| (r >>> 6), 0x80 ||| (r &&& 0x3F)]
  else if r > 0x10FFFF ∨ (0xD800 ≤ r ∧ r ≤ 0xDFFF) then [0xEF, 0xBF, 0xBD]
  else if r ≤ 0xFFFF then
    [0xE0 ||| (r >>> 12), 0x80 ||| ((r >>> 6) &&& 0x3F), 0x80 ||| (r &&& 0x3F)]
  else
    [0xF0 ||| (r >>> 18), 0x80 ||| ((r >>> 12) &&& 0x3F),
     0x80 ||| ((r >>> 6) &&& 0x3F), 0x80 ||| (r &&& 0x3F)]

/-- The bytes of a list of characters, each encoded as UTF-8. -/
def bytesOfChars : List Char → Bytes
  | [] => []
  | c :: cs => encodeRune c.toNat ++ bytesOfChars cs

/-- The bytes of a string literal (its UTF-8 encoding). -/
def bytesOf (s : String) : Bytes := bytesOfChars s.toList

/-- Whether `b` is a UTF-8 continuation byte (`0x80..0xBF`). -/
def isCont (b : Nat) : Bool := decide (0x80 ≤ b) && decide (b ≤ 0xBF)

/-- Go `utf8.DecodeRune`: the first rune of `p` and its width in bytes; an
invalid or truncated encoding yields `(runeError, 1)`, an empty input
`(runeError, 0)`. -/
def decodeRune : Bytes → Nat × Nat
  | [] => (runeError, 0)
  | p0 :: rest =>
    if p0 < 0x80 then (p0, 1)
    else if p0 < 0xC2 ∨ 0xF4 < p0 then (runeError, 1)
    else
      match rest with
      | [] => (runeError, 1)
      | b1 :: rest1 =>
        -- the accepted range of the second byte depends on the first
        let lo := if p0 = 0xE0 then 0xA0 else if p0 = 0xF0 then 0x90 else 0x80
        let hi := if p0 = 0xED then 0x9F else if p0 = 0xF4 then 0x8F else 0xBF
        if b1 < lo ∨ hi < b1 then (runeError, 1)
        else if p0 < 0xE0 then (((p0 &&& 0x1F) <<< 6) ||| (b1 &&& 0x3F), 2)
        else
          match rest1 with
          | [] => (runeError, 1)
          | b2 :: rest2 =>
            if !isCont b2 then (runeError, 1)
            else if p0 < 0xF0 then
              (((p0 &&& 0x0F) <<< 12) ||| ((b1 &&& 0x3F) <<< 6) ||| (b2 &&& 0x3F), 3)
            else
              match rest2 with
              | [] => (runeError, 1)
              | b3 :: _ =>
                if !isCont b3 then (runeError, 1)
                else
                  (((p0 &&& 0x07) <<< 18) ||| ((b1 &&& 0x3F) <<< 12)
                    ||| ((b2 &&& 0x3F) <<< 6) ||| (b3 &&& 0x3F), 4)

/-- The value of a hexadecimal digit, as in `getu4` of `encoding/json` and the
`xvalues` table of `github.com/google/uuid`. -/
def hexVal (c : Nat) : Option Nat :=
  if 48 ≤ c ∧ c ≤ 57 then some (c - 48)
  else if 97 ≤ c ∧ c ≤ 102 then some (c - 97 + 10)
  else if 65 ≤ c ∧ c ≤ 70 then some (c - 65 + 10)
  else none

/-- Upper-case an ASCII letter, leave every other byte alone. -/
def asciiUpper (c : Nat) : Nat := if 97 ≤ c ∧ c ≤ 122 then c - 32 else c

/-- Case-insensitive comparison against an ASCII name, as `encoding/json` matches
an object key with a struct field and `uuid` matches the `urn:uuid:` prefix. -/
def equalFold (name key : Bytes) : Bool := name.map asciiUpper == key.map asciiUpper

/-! ## JSON values and the scanner of `encoding/json` -/

/-- The errors `json.Decoder.Decode` can return for the payload struct. -/
inductive DecodeError where
  /-- `io.EOF`: the body holds no value at all (empty or only whitespace). -/
  | eof
  /-- `io.ErrUnexpectedEOF`: the body ends inside a value. -/
  | unexpectedEOF
  /-- A `*json.SyntaxError`. -/
  | syntaxError (msg : String)
  /-- A `*json.UnmarshalTypeError`: a JSON value of kind `value` cannot be stored
  in the Go field `field` (empty for the struct itself). -/
  | unmarshalType (value : String) (field : String)
  /-- The `invalidLengthError` of `uuid.ParseBytes`. -/
  | uuidLength (n : Nat)
  /-- The `invalid urn prefix` error of `uuid.ParseBytes`. -/
  | uuidPrefix
  /-- The `invalid UUID format` error of `uuid.ParseBytes`. -/
  | uuidFormat
  /-- The recursion budget of `parse` ran out. This is no error of the Go
  decoder, and `Decode_not_exhausted` shows that `Decode` never returns it. -/
  | exhausted
  deriving DecidableEq, Repr

/-- A JSON value as the decoder sees it: strings are held unquoted, numbers as
their literal text. -/
inductive Value where
  | null
  | bool (b : Bool)
  | number (lit : Bytes)
  | string (s : Bytes)
  | array (elems : List Value)
  | object (members : List (Bytes × Value))

/-- The scanner's `isSpace`: space, tab, carriage return, line feed. -/
def isSpace (c : Nat) : Bool := c == 32 || c == 9 || c == 13 || c == 10

/-- Drop leading JSON whitespace. -/
def skipSpace : Bytes → Bytes
  | [] => []
  | c :: rest => if isSpace c then skipSpace rest else c :: rest

/-- Put a scanned byte in front of the text a sub-scan returns. -/
def consScanned (c : Nat) : Except DecodeError (Bytes × Bytes) → Except DecodeError (Bytes × Bytes)
  | .ok (raw, rest) => .ok (c :: raw, rest)
  | .error e => .error e

/-- The scanner states inside a string literal: `stateInString`,
`stateInStringEsc` and `stateInStringEscU..U123` (hex digits still expected). -/
inductive StrState where
  | inString
  | esc
  | escU (n : Nat)

/-- The scanner inside a string literal, from just after the opening quote:
the raw text up to the closing quote and the input after it. -/
def scanString : StrState → Bytes → Except DecodeError (Bytes × Bytes)
  | _, [] => .error .unexpectedEOF
  | .inString, c :: rest =>
    if c = 34 then .ok ([], rest)
    else if c = 92 then consScanned c (scanString .esc rest)
    else if c < 0x20 then .error (.syntaxError "invalid character in string literal")
    else consScanned c (scanString .inString rest)
  | .esc, c :: rest =>
    if c = 98 ∨ c = 102 ∨ c = 110 ∨ c = 114 ∨ c = 116 ∨ c = 92 ∨ c = 47 ∨ c = 34 then
      consScanned c (scanString .inString rest)
    else if c = 117 then consScanned c (scanString (.escU 4) rest)
    else .error (.syntaxError "invalid character in string escape code")
  | .escU n, c :: rest =>
    if (hexVal c).isSome then
      consScanned c (scanString (if n ≤ 1 then .inString else .escU (n - 1)) rest)
    else .error (.syntaxError "invalid character in \\u hexadecimal character escape")

/-- Go `getu4`: the rune of a `\uXXXX` escape at the head of the input. -/
def getu4 : Bytes → Option Nat
  | b :: u :: h1 :: h2 :: h3 :: h4 :: _ =>
    if b = 92 ∧ u = 117 then
      match hexVal h1, hexVal h2, hexVal h3, hexVal h4 with
      | some a, some b, some c, some d => some (((a * 16 + b) * 16 + c) * 16 + d)
      | _, _, _, _ => none
    else none
  | _ => none

/-- Go `utf16.DecodeRune`: the code point of a surrogate pair, or the replacement
character when the two halves do not form one. -/
def decodeSurrogates (r1 r2 : Nat) : Nat :=
  if 0xD800 ≤ r1 ∧ r1 < 0xDC00 ∧ 0xDC00 ≤ r2 ∧ r2 < 0xE000 then
    (((r1 - 0xD800) <<< 10) ||| (r2 - 0xDC00)) + 0x10000
  else runeError

/-- The byte a one-letter escape stands for. -/
def escapeByte (e : Nat) : Nat :=
  if e = 98 then 8 else if e = 102 then 12 else if e = 110 then 10
  else if e = 114 then 13 else if e = 116 then 9 else e

/-- Go `unquoteBytes` on the raw text of a scanned string literal: escapes are
replaced, surrogate pairs combined, invalid UTF-8 coerced to the replacement
character. The first argument counts input bytes already consumed by the
previous step. -/
def unquoteFrom : Nat → Bytes → Bytes
  | _, [] => []
  | skip + 1, _ :: rest => unquoteFrom skip rest
  | 0, c :: rest =>
    if c = 92 then
      match rest with
      | [] => []
      | e :: _ =>
        if e = 117 then
          match getu4 (c :: rest) with
          | none => []
          | some rr =>
            if 0xD800 ≤ rr ∧ rr < 0xE000 then
              match getu4 (rest.drop 5) with
              | some rr1 =>
                if decodeSurrogates rr rr1 ≠ runeError then
                  encodeRune (decodeSurrogates rr rr1) ++ unquoteFrom 11 rest
                else encodeRune runeError ++ unquoteFrom 5 rest
              | none => encodeRune runeError ++ unquoteFrom 5 rest
            else encodeRune rr ++ unquoteFrom 5 rest
        else escapeByte e :: unquoteFrom 1 rest
    else if c < 0x80 then c :: unquoteFrom 0 rest
    else encodeRune (decodeRune (c :: rest)).1 ++ unquoteFrom ((decodeRune (c :: rest)).2 - 1) rest

/-- The unquoted contents of a scanned string literal. -/
def unquote (raw : Bytes) : Bytes := unquoteFrom 0 raw

/-- Whether `c` is an ASCII digit. -/
def isDigit (c : Nat) : Bool := decide (48 ≤ c) && decide (c ≤ 57)

/-- The scanner states inside a number: `stateNeg`, `state0`, `state1`,
`stateDot`, `stateDot0`, `stateE`, `stateESign`, `stateE0`. -/
inductive NumState where
  | neg | zero | int | dot | frac | e | eSign | exp

/-- The scanner inside a number: the literal text from here on and the input
after it. A number ends before the first byte that cannot continue it. -/
def scanNumber : NumState → Bytes → Except DecodeError (Bytes × Bytes)
  | .zero, [] | .int, [] | .frac, [] | .exp, [] => .ok ([], [])
  | _, [] => .error .unexpectedEOF
  | .neg, c :: rest =>
    if c = 48 then consScanned c (scanNumber .zero rest)
    else if isDigit c then consScanned c (scanNumber .int rest)
    else .error (.syntaxError "invalid character in numeric literal")
  | .int, c :: rest =>
    if isDigit c then consScanned c (scanNumber .int rest)
    else if c = 46 then consScanned c (scanNumber .dot rest)
    else if c = 101 ∨ c = 69 then consScanned c (scanNumber .e rest)
    else .ok ([], c :: rest)
  | .zero, c :: rest =>
    if c = 46 then consScanned c (scanNumber .dot rest)
    else if c = 101 ∨ c = 69 then consScanned c (scanNumber .e rest)
    else .ok ([], c :: rest)
  | .dot, c :: rest =>
    if isDigit c then consScanned c (scanNumber .frac rest)
    else .error (.syntaxError "invalid character after decimal point in numeric literal")
  | .frac, c :: rest =>
    if isDigit c then consScanned c (scanNumber .frac rest)
    else if c = 101 ∨ c = 69 then consScanned c (scanNumber .e rest)
    else .ok ([], c :: rest)
  | .e, c :: rest =>
    if c = 43 ∨ c = 45 then consScanned c (scanNumber .eSign rest)
    else if isDigit c then consScanned c (scanNumber .exp rest)
    else .error (.syntaxError "invalid character in exponent of numeric literal")
  | .eSign, c :: rest =>
    if isDigit c then consScanned c (scanNumber .exp rest)
    else .error (.syntaxError "invalid character in exponent of numeric literal")
  | .exp, c :: rest =>
    if isDigit c then consScanned c (scanNumber .exp rest)
    else .ok ([], c :: rest)

/-- The scanner inside `true`, `false` or `null`, after the first letter: the
input after the literal when the remaining letters are the expected ones. -/
def scanLiteral : Bytes → Bytes → Except DecodeError Bytes
  | [], input => .ok input
  | _ :: _, [] => .error .unexpectedEOF
  | x :: expected, c :: rest =>
    if c = x then scanLiteral expected rest
    else .error (.syntaxError "invalid character in literal")

/-- The scanner's `maxNestingDepth`. -/
def maxNestingDepth : Nat := 10000

/-- What `parse` is reading: a value, the members of an object after `{` or `,`
(those read so far are carried along), or the elements of an array. -/
inductive Goal where
  | value
  | members (acc : List (Bytes × Value))
  | elements (acc : List Value)

/-- Turn a scanned number into a value. -/
def numberValue (c : Nat) : Except DecodeError (Bytes × Bytes) → Except DecodeError (Value × Bytes)
  | .ok (lit, rest) => .ok (.number (c :: lit), rest)
  | .error e => .error e

/-- Turn a scanned literal into a value. -/
def literalValue (v : Value) : Except DecodeError Bytes → Except DecodeError (Value × Bytes)
  | .ok rest => .ok (v, rest)
  | .error e => .error e

/-- The JSON grammar as the scanner of `encoding/json` accepts it: one value (or
the rest of an object or array) read from the front of the input, and the input
that follows it. `depth` is the number of enclosing objects and arrays; the first
argument bounds the recursion. -/
def parse : Nat → Nat → Goal → Bytes → Except DecodeError (Value × Bytes)
  | 0, _, _, _ => .error .exhausted
  | fuel + 1, depth, .value, input =>
    match skipSpace input with
    | [] => .error .unexpectedEOF
    | c :: rest =>
      if c = 123 then
        if depth + 1 > maxNestingDepth then .error (.syntaxError "exceeded max depth")
        else
          match skipSpace rest with
          | [] => .error .unexpectedEOF
          | c1 :: rest1 =>
            if c1 = 125 then .ok (.object [], rest1)
            else parse fuel (depth + 1) (.members []) (c1 :: rest1)
      else if c = 91 then
        if depth + 1 > maxNestingDepth then .error (.syntaxError "exceeded max depth")
        else
          match skipSpace rest with
          | [] => .error .unexpectedEOF
          | c1 :: rest1 =>
            if c1 = 93 then .ok (.array [], rest1)
            else parse fuel (depth + 1) (.elements []) (c1 :: rest1)
      else if c = 34 then
        match scanString .inString rest with
        | .ok (raw, rest1) => .ok (.string (unquote raw), rest1)
        | .error e => .error e
      else if c = 45 then numberValue c (scanNumber .neg rest)
      else if c = 48 then numberValue c (scanNumber .zero rest)
      else if isDigit c then numberValue c (scanNumber .int rest)
      else if c = 116 then literalValue (.bool true) (scanLiteral [114, 117, 101] rest)
      else if c = 102 then literalValue (.bool false) (scanLiteral [97, 108, 115, 101] rest)
      else if c = 110 then literalValue .null (scanLiteral [117, 108, 108] rest)
      else .error (.syntaxError "invalid character looking for beginning of value")
  | fuel + 1, depth, .members acc, input =>
    match skipSpace input with
    | [] => .error .unexpectedEOF
    | c :: rest =>
      if c ≠ 34 then
        .error (.syntaxError "invalid character looking for beginning of object key string")
      else
        match scanString .inString rest with
        | .error e => .error e
        | .ok (raw, rest1) =>
          match skipSpace rest1 with
          | [] => .error .unexpectedEOF
          | c2 :: rest2 =>
            if c2 ≠ 58 then .error (.syntaxError "invalid character after object key")
            else
              match parse fuel depth .value rest2 with
              | .error e => .error e
              | .ok (v, rest3) =>
                match skipSpace rest3 with
                | [] => .error .unexpectedEOF
                | c4 :: rest4 =>
                  if c4 = 44 then parse fuel depth (.members (acc ++ [(unquote raw, v)])) rest4
                  else if c4 = 125 then .ok (.object (acc ++ [(unquote raw, v)]), rest4)
                  else .error (.syntaxError "invalid character after object key:value pair")
  | fuel + 1, depth, .elements acc, input =>
    match parse fuel depth .value input with
    | .error e => .error e
    | .ok (v, rest1) =>
      match skipSpace rest1 with
      | [] => .error .unexpectedEOF
      | c2 :: rest2 =>
        if c2 = 44 then parse fuel depth (.elements (acc ++ [v])) rest2
        else if c2 = 93 then .ok (.array (acc ++ [v]), rest2)
        else .error (.syntaxError "invalid character after array element")

/-- Go `Decoder.readValue` followed by the walk over the value: the first JSON
value of the body and the bytes after it, which `Decode` leaves unread. A body
of whitespace only is `io.EOF`. -/
def readValue (body : Bytes) : Except DecodeError (Value × Bytes) :=
  match skipSpace body with
  | [] => .error .eof
  | _ :: _ => parse (2 * body.length + 1) 0 .value body

/-! ## `uuid.UUID` and its text form -/

/-- Go `uuid.UUID`, a `[16]byte`. -/
abbrev UUID := Bytes

/-- Go `uuid.Nil`, the zero value of `uuid.UUID`. -/
def UUID.Nil : UUID := List.replicate 16 0

/-- Go `xtob` of the uuid package: the byte two hexadecimal digits denote. -/
def xtob (x1 x2 : Nat) : Option Nat :=
  match hexVal x1, hexVal x2 with
  | some a, some b => some (a * 16 + b)
  | _, _ => none

/-- The bytes denoted by the hexadecimal digit pairs at the given offsets of `b`;
an offset past the end reads as a non-digit. -/
def hexPairsAt (b : Bytes) : List Nat → Option Bytes
  | [] => some []
  | x :: xs =>
    match xtob (b.getD x 256) (b.getD (x + 1) 256), hexPairsAt b xs with
    | some v, some vs => some (v :: vs)
    | _, _ => none

/-- The offsets of the sixteen digit pairs in `xxxxxxxx-xxxx-xxxx-xxxx-xxxxxxxxxxxx`. -/
def dashedOffsets : List Nat := [0, 2, 4, 6, 9, 11, 14, 16, 19, 21, 24, 26, 28, 30, 32, 34]

/-- The offsets of the sixteen digit pairs in the form without dashes. -/
def plainOffsets : List Nat := [0, 2, 4, 6, 8, 10, 12, 14, 16, 18, 20, 22, 24, 26, 28, 30]

/-- The tail of `ParseBytes`, on at least 36 bytes: dashes at 8, 13, 18 and 23,
hexadecimal digits elsewhere. -/
def parseDashed (b : Bytes) : Except DecodeError UUID :=
  if b.getD 8 256 ≠ 45 ∨ b.getD 13 256 ≠ 45 ∨ b.getD 18 256 ≠ 45 ∨ b.getD 23 256 ≠ 45 then
    .error .uuidFormat
  else
    match hexPairsAt b dashedOffsets with
    | some u => .ok u
    | none => .error .uuidFormat

/-- Go `uuid.ParseBytes`, which `UUID.UnmarshalText` calls: the 36-byte dashed
form, the same behind `urn:uuid:` (45 bytes) or with one more byte on each side
(38 bytes, the braces form), or 32 hexadecimal digits. -/
def ParseBytes (b : Bytes) : Except DecodeError UUID :=
  if b.length = 36 then parseDashed b
  else if b.length = 36 + 9 then
    if equalFold (bytesOf "urn:uuid:") (b.take 9) then parseDashed (b.drop 9)
    else .error .uuidPrefix
  else if b.length = 36 + 2 then parseDashed (b.drop 1)
  else if b.length = 32 then
    match hexPairsAt b plainOffsets with
    | some u => .ok u
    | none => .error .uuidFormat
  else .error (.uuidLength b.length)

/-! ## Decoding the request body -/

/-- Go `BuildCallbackPayload`. -/
structure BuildCallbackPayload where
  AgentName : Bytes
  ProjectName : Bytes
  OrgId : UUID
  deriving DecidableEq, Repr

/-- The zero value `var payload BuildCallbackPayload` starts from. -/
def BuildCallbackPayload.zero : BuildCallbackPayload := ⟨[], [], UUID.Nil⟩

/-- The fields of `BuildCallbackPayload`. -/
inductive Field where
  | AgentName | ProjectName | OrgId
  deriving DecidableEq, Repr

/-- The key the `json:"..."` tag gives a field. -/
def Field.jsonName : Field → String
  | .AgentName => "agentName"
  | .ProjectName => "projectName"
  | .OrgId => "orgId"

/-- The field an object key selects: the one whose tag equals the key, letter case
ignored. (`encoding/json` looks for an exact match first and a case-insensitive
one second; the three tags differ also without case, so both give this field.) -/
def findField (key : Bytes) : Option Field :=
  if equalFold (bytesOf Field.AgentName.jsonName) key then some .AgentName
  else if equalFold (bytesOf Field.ProjectName.jsonName) key then some .ProjectName
  else if equalFold (bytesOf Field.OrgId.jsonName) key then some .OrgId
  else none

/-- The `Value` string of an `UnmarshalTypeError` for a JSON value. -/
def Value.kind : Value → String
  | .null => "null"
  | .bool _ => "bool"
  | .number _ => "number"
  | .string _ => "string"
  | .array _ => "array"
  | .object _ => "object"

/-- Go `decodeState` as far as the handler can observe it: the struct being
filled and the first error `saveError` kept. -/
structure DecodeState where
  payload : BuildCallbackPayload
  savedError : Option DecodeError

/-- Go `decodeState.saveError`: keep the first error, go on decoding. -/
def DecodeState.saveError (d : DecodeState) (e : DecodeError) : DecodeState :=
  match d.savedError with
  | none => { d with savedError := some e }
  | some _ => d

/-- Store one object member. A key that selects no field is skipped. `null`
leaves a field as it is. A string goes into a string field as it is and into
`OrgId` through `UnmarshalText`, whose error ends the decoding at once. Any other
value is an `UnmarshalTypeError`, which is saved while decoding goes on. -/
def storeMember (d : DecodeState) (key : Bytes) (v : Value) : Except DecodeError DecodeState :=
  match findField key with
  | none => .ok d
  | some .AgentName =>
    match v with
    | .null => .ok d
    | .string s => .ok { d with payload := { d.payload with AgentName := s } }
    | other => .ok (d.saveError (.unmarshalType other.kind "AgentName"))
  | some .ProjectName =>
    match v with
    | .null => .ok d
    | .string s => .ok { d with payload := { d.payload with ProjectName := s } }
    | other => .ok (d.saveError (.unmarshalType other.kind "ProjectName"))
  | some .OrgId =>
    match v with
    | .null => .ok d
    | .string s =>
      match ParseBytes s with
      | .ok u => .ok { d with payload := { d.payload with OrgId := u } }
      | .error e => .error e
    | other => .ok (d.saveError (.unmarshalType other.kind "OrgId"))

/-- Go `decodeState.object` on the payload struct: the members in order. -/
def storeMembers (d : DecodeState) : List (Bytes × Value) → Except DecodeError DecodeState
  | [] => .ok d
  | (key, v) :: rest =>
    match storeMember d key v with
    | .ok d1 => storeMembers d1 rest
    | .error e => .error e

/-- Go `decodeState.unmarshal` into `&payload`: an object fills the struct,
`null` leaves it at its zero value, any other value is an `UnmarshalTypeError`.
A saved error is returned once the value has been walked. -/
def unmarshal (v : Value) : Except DecodeError BuildCallbackPayload :=
  match v with
  | .object members =>
    match storeMembers ⟨BuildCallbackPayload.zero, none⟩ members with
    | .ok d =>
      match d.savedError with
      | none => .ok d.payload
      | some e => .error e
    | .error e => .error e
  | .null => .ok BuildCallbackPayload.zero
  | other => .error (.unmarshalType other.kind "")

/-- The call `json.NewDecoder(r.Body).Decode(&payload)` on a fresh decoder and a
zero payload: read the first JSON value of the body, then unmarshal it. -/
def Decode (body : Bytes) : Except DecodeError BuildCallbackPayload :=
  match readValue body with
  | .ok (v, _) => unmarshal v
  | .error e => .error e

/-! ## Encoding a response: `json.Encoder.Encode` -/

/-- The digit of `0123456789abcdef` for a value below 16. -/
def hexDigit (n : Nat) : Nat := if n < 10 then 48 + n else 97 + (n - 10)

/-- Go `hex.Encode`: two lower-case hexadecimal digits for each byte. -/
def hexBytes : Bytes → Bytes
  | [] => []
  | b :: bs => hexDigit (b >>> 4) :: hexDigit (b &&& 0xF) :: hexBytes bs

/-- Go `(UUID).String`: the canonical text `xxxxxxxx-xxxx-xxxx-xxxx-xxxxxxxxxxxx`
of a UUID. -/
def UUID.String (u : UUID) : Bytes :=
  hexBytes (u.take 4) ++ 45 :: hexBytes ((u.drop 4).take 2) ++ 45 ::
    hexBytes ((u.drop 6).take 2) ++ 45 :: hexBytes ((u.drop 8).take 2) ++ 45 ::
    hexBytes (u.drop 10)

/-- The `htmlSafeSet` of `encoding/json`: the ASCII bytes a string is written
with as they are when HTML escaping is on, as it is for a new `Encoder`. -/
def htmlSafe (b : Nat) : Bool :=
  decide (0x20 ≤ b) && decide (b < 0x80) &&
    !(b == 34 || b == 38 || b == 60 || b == 62 || b == 92)

/-- The body of Go `appendString` (Go 1.22 and later, which write `\b` and `\f`
in their short form): the contents of a JSON string literal for a Go string. The
first argument counts input bytes already written by the previous step. -/
def appendStringFrom : Nat → Bytes → Bytes
  | _, [] => []
  | skip + 1, _ :: rest => appendStringFrom skip rest
  | 0, b :: rest =>
    if b < 0x80 then
      if htmlSafe b then b :: appendStringFrom 0 rest
      else if b = 92 ∨ b = 34 then 92 :: b :: appendStringFrom 0 rest
      else if b = 8 then 92 :: 98 :: appendStringFrom 0 rest
      else if b = 12 then 92 :: 102 :: appendStringFrom 0 rest
      else if b = 10 then 92 :: 110 :: appendStringFrom 0 rest
      else if b = 13 then 92 :: 114 :: appendStringFrom 0 rest
      else if b = 9 then 92 :: 116 :: appendStringFrom 0 rest
      else 92 :: 117 :: 48 :: 48 :: hexDigit (b >>> 4) :: hexDigit (b &&& 0xF)
        :: appendStringFrom 0 rest
    else if (decodeRune (b :: rest)).1 = runeError ∧ (decodeRune (b :: rest)).2 = 1 then
      bytesOf "\\ufffd" ++ appendStringFrom 0 rest
    else if (decodeRune (b :: rest)).1 = 0x2028 ∨ (decodeRune (b :: rest)).1 = 0x2029 then
      bytesOf "\\u202" ++ hexDigit ((decodeRune (b :: rest)).1 &&& 0xF)
        :: appendStringFrom ((decodeRune (b :: rest)).2 - 1) rest
    else
      (b :: rest).take (decodeRune (b :: rest)).2
        ++ appendStringFrom ((decodeRune (b :: rest)).2 - 1) rest

/-- The JSON string literal for a Go string. -/
def encodeString (s : Bytes) : Bytes := 34 :: appendStringFrom 0 s ++ [34]

/-- Go `strings.Compare (a, b) <= 0`: bytewise lexicographic order. -/
def bytesLE : Bytes → Bytes → Bool
  | [], _ => true
  | _ :: _, [] => false
  | a :: as, b :: bs => if a < b then true else if b < a then false else bytesLE as bs

/-- Insert a map entry into entries sorted by key. -/
def insertEntry (e : Bytes × Bytes) : List (Bytes × Bytes) → List (Bytes × Bytes)
  | [] => [e]
  | x :: xs => if bytesLE e.1 x.1 then e :: x :: xs else x :: insertEntry e xs

/-- The entries of a map in the order the encoder writes them: sorted by key. -/
def sortEntries : List (Bytes × Bytes) → List (Bytes × Bytes)
  | [] => []
  | e :: es => insertEntry e (sortEntries es)

/-- The members of an encoded `map[string]string`, entries in the given order. -/
def encodeEntries : List (Bytes × Bytes) → Bytes
  | [] => []
  | [e] => encodeString e.1 ++ 58 :: encodeString e.2
  | e :: e1 :: es => encodeString e.1 ++ 58 :: encodeString e.2 ++ 44 :: encodeEntries (e1 :: es)

/-- The JSON encoding of a Go type: `json.Marshal` with HTML escaping on, `none`
when the value cannot be encoded. The type of the service's result is declared
outside this file, so the handler is stated for any type with an encoding. -/
class Marshaler (R : Type) where
  marshalJSON : R → Option Bytes

/-- The values `writeJSONResponse` is called with (`data interface{}`): a
`map[string]string`, given by its entries, or a result of the service. -/
inductive Data (R : Type) where
  | stringMap (entries : List (Bytes × Bytes))
  | result (r : R)

/-- Go `json.Marshal` on the data of a response; a map of strings always
encodes. -/
def marshal {R : Type} [Marshaler R] : Data R → Option Bytes
  | .stringMap entries => some (123 :: encodeEntries (sortEntries entries) ++ [125])
  | .result r => Marshaler.marshalJSON r

/-! ## Effects of a request -/

/-- What a request does to the world around the handler, in the order it happens.
`E` is the type of the errors of the downstream service. -/
inductive Event (E : Type) where
  /-- `json.NewDecoder(r.Body).Decode(&payload)`. -/
  | decode (body : Bytes)
  /-- `log.Error(msg, "error", err)`, the error from the decoder or the service. -/
  | logError (msg : String) (err : DecodeError ⊕ E)
  /-- `log.Info(msg, "payload", payload)`. -/
  | logInfo (msg : String) (payload : BuildCallbackPayload)
  /-- `b.buildCIManagerService.HandleBuildCallback(ctx, orgId, projectName, agentName)`
  and the error it returned (`none` for `nil`). -/
  | serviceCall (orgId : UUID) (projectName agentName : Bytes) (err : Option E)
  /-- `w.Header().Set(key, value)`. -/
  | headerSet (key value : String)
  /-- `w.WriteHeader(statusCode)`. -/
  | writeHeader (statusCode : Int)
  /-- `w.Write(p)`. -/
  | write (p : Bytes)

/-- The effects of a request so far. The `http.ResponseWriter` is an interface;
it is modelled by the calls made on it, which are part of this record. -/
abbrev Trace (E : Type) := List (Event E)

/-- The response a `net/http` response writer has built from the calls made on
it: the header map still open to changes, and what has been sent. -/
structure Response where
  header : List (String × String)
  wroteHeader : Bool
  statusCode : Int
  sentHeader : List (String × String)
  body : Bytes
  deriving DecidableEq, Repr

/-- A response writer nothing has been called on. -/
def Response.fresh : Response := ⟨[], false, 0, [], []⟩

/-- `Header().Set`: replace the values of a key. -/
def setHeader (h : List (String × String)) (key value : String) : List (String × String) :=
  h.filter (fun kv => kv.1 != key) ++ [(key, value)]

/-- `WriteHeader` of `net/http`: the first call sends the status line with the
header map as it is then; later calls are ignored. -/
def Response.WriteHeader (s : Response) (statusCode : Int) : Response :=
  if s.wroteHeader then s
  else { s with wroteHeader := true, statusCode := statusCode, sentHeader := s.header }

/-- The effect of one event on the response: `Header().Set`, `WriteHeader`, and
`Write`, which sends status 200 first when no status line was written. -/
def Response.step {E : Type} (s : Response) : Event E → Response
  | .headerSet key value => { s with header := setHeader s.header key value }
  | .writeHeader statusCode => s.WriteHeader statusCode
  | .write p => { s.WriteHeader 200 with body := (s.WriteHeader 200).body ++ p }
  | _ => s

/-- The response a trace leaves on a fresh response writer. -/
def response {E : Type} (t : Trace E) : Response := t.foldl Response.step Response.fresh

/-- The calls of the downstream service in a trace, as (orgId, projectName,
agentName). -/
def serviceCalls {E : Type} : Trace E → List (UUID × Bytes × Bytes)
  | [] => []
  | .serviceCall orgId projectName agentName _ :: t =>
    (orgId, projectName, agentName) :: serviceCalls t
  | _ :: t => serviceCalls t

/-! ## The controller -/

/-- Go `json.NewEncoder(w).Encode(data)`: the encoding of the value followed by
a newline is written in one `Write`; when the value cannot be encoded nothing is
written. The error is the caller's to look at. -/
def Encode {E R : Type} [Marshaler R] (w : Trace E) (data : Data R) : Trace E × Bool :=
  match marshal data with
  | some b => (w ++ [.write (b ++ [10])], true)
  | none => (w, false)

/-- Go `writeJSONResponse`. The result of `Encode` is dropped (`_ =`). -/
def writeJSONResponse {E R : Type} [Marshaler R] (w : Trace E) (statusCode : Int)
    (data : Data R) : Trace E :=
  let w := w ++ [.headerSet "Content-Type" "application/json"]
  let w := w ++ [.writeHeader statusCode]
  (Encode w data).1

/-- Go `buildCIController`: the downstream service, as the function from the
arguments of its `HandleBuildCallback` to the pair it returns, a result and an
error (`none` for `nil`). -/
structure buildCIController (E R : Type) where
  buildCIManagerService : UUID → Bytes → Bytes → R × Option E

/-- Go `http.StatusBadRequest`. -/
def StatusBadRequest : Int := 400

/-- Go `http.StatusInternalServerError`. -/
def StatusInternalServerError : Int := 500

/-- Go `http.StatusOK`. -/
def StatusOK : Int := 200

/-- Go `(*buildCIController).HandleBuildCallback`, on the effects so far and the
bytes of the request body. -/
def HandleBuildCallback {E R : Type} [Marshaler R] (b : buildCIController E R)
    (w : Trace E) (body : Bytes) : Trace E :=
  let w := w ++ [.decode body]
  match Decode body with
  | .error err =>
    let w := w ++ [.logError "HandleBuildCallback: failed to decode request body" (.inl err)]
    writeJSONResponse (R := R) w StatusBadRequest
      (.stringMap [(bytesOf "error", bytesOf "Invalid request body")])
  | .ok payload =>
    let w := w ++ [.logInfo "Build callback received" payload]
    match b.buildCIManagerService payload.OrgId payload.ProjectName payload.AgentName with
    | (_, some err) =>
      let w := w ++ [.serviceCall payload.OrgId payload.ProjectName payload.AgentName (some err)]
      let w := w ++ [.logError "HandleBuildCallback: failed to process callback" (.inr err)]
      writeJSONResponse (R := R) w StatusInternalServerError
        (.stringMap [(bytesOf "error", bytesOf "Failed to process build callback")])
    | (workloadCR, none) =>
      let w := w ++ [.serviceCall payload.OrgId payload.ProjectName payload.AgentName none]
      writeJSONResponse w StatusOK (.result workloadCR)

/-! ## Notions the properties are stated with -/

/-- The recursion budget that is enough for `parse` on an input of `n` bytes. -/
def Goal.budget : Goal → Nat → Nat
  | .elements _, n => 2 * n + 2
  | _, n => 2 * n + 1

/-- A result of `parse` that is not a spent budget and, when it is a value, leaves
fewer than `n` bytes of input. -/
def Settled (n : Nat) (r : Except DecodeError (Value × Bytes)) : Prop :=
  r ≠ .error .exhausted ∧ ∀ v rest, r = .ok (v, rest) → rest.length < n

/-- Whether `storeMember` takes a value for a field without an error: `null`
for any field, a string for the two names, a string `uuid.ParseBytes` accepts
for `OrgId`. -/
def Field.accepts : Field → Value → Bool
  | _, .null => true
  | .OrgId, .string s =>
    match ParseBytes s with
    | .ok _ => true
    | .error _ => false
  | _, .string _ => true
  | _, _ => false

/-- Whether an object member decodes without an error: its key selects no field,
or the field it selects accepts the value. -/
def accepted (m : Bytes × Value) : Bool :=
  match findField m.1 with
  | none => true
  | some f => f.accepts m.2

/-- Whether some member of an object selects the field. -/
def mentions (ms : List (Bytes × Value)) (f : Field) : Bool :=
  ms.any (fun m => findField m.1 == some f)

/-- A field of the payload, as bytes. -/
def BuildCallbackPayload.get (p : BuildCallbackPayload) : Field → Bytes
  | .AgentName => p.AgentName
  | .ProjectName => p.ProjectName
  | .OrgId => p.OrgId

/-- Whether a value is a JSON string. -/
def Value.isString : Value → Bool
  | .string _ => true
  | _ => false

/-- Whether a value is JSON `null`. -/
def Value.isNull : Value → Bool
  | .null => true
  | _ => false

/-- Whether a value is a JSON object. -/
def Value.isObject : Value → Bool
  | .object _ => true
  | _ => false

/-- The JSON value a text denotes: the text is one JSON value with nothing but
whitespace around it. -/
def jsonValue (data : Bytes) : Option Value :=
  match readValue data with
  | .ok (v, rest) => if (skipSpace rest).isEmpty then some v else none
  | .error _ => none

/-- Go `json.Valid`: the whole input is a JSON text. -/
def Valid (data : Bytes) : Bool := (jsonValue data).isSome

/-- The bodies the decoder turns down: no value at all or a malformed or
truncated first value; a first value that is neither an object nor `null`; an
object that gives `agentName` or `projectName` something other than a string or
`null`; an object that gives `orgId` something other than `null` or a string
`uuid.ParseBytes` accepts. Keys select their field without regard to case. -/
inductive Rejected : Bytes → Prop where
  | malformed {body : Bytes} {e : DecodeError} :
      readValue body = .error e → Rejected body
  | notObject {body rest : Bytes} {v : Value} :
      readValue body = .ok (v, rest) → v.isObject = false → v.isNull = false → Rejected body
  | badName {body rest k : Bytes} {ms : List (Bytes × Value)} {v : Value} :
      readValue body = .ok (.object ms, rest) → (k, v) ∈ ms →
      (findField k = some .AgentName ∨ findField k = some .ProjectName) →
      v.isString = false → v.isNull = false → Rejected body
  | badOrgId {body rest k : Bytes} {ms : List (Bytes × Value)} {v : Value} :
      readValue body = .ok (.object ms, rest) → (k, v) ∈ ms →
      findField k = some .OrgId → v.isNull = false →
      (∀ s u, v = .string s → ParseBytes s ≠ .ok u) → Rejected body

/-- The calls on the response writer in a trace. -/
def writerCalls {E : Type} : Trace E → Trace E
  | [] => []
  | .headerSet key value :: t => .headerSet key value :: writerCalls t
  | .writeHeader statusCode :: t => .writeHeader statusCode :: writerCalls t
  | .write p :: t => .write p :: writerCalls t
  | _ :: t => writerCalls t

/-- Sample results of the downstream service: a struct with the string fields
`status` and `name`, and a value that holds a channel, which `json.Marshal`
cannot encode. -/
inductive SampleResult where
  | workload (status name : Bytes)
  | channel

instance : Marshaler SampleResult where
  marshalJSON
    | .workload status name =>
      some (bytesOf "\x7b\"status\":" ++ encodeString status ++ bytesOf ",\"name\":"
        ++ encodeString name ++ [125])
    | .channel => none

/-- A downstream service that returns the same result and error for every call;
its errors are Go error messages. -/
def sampleController (r : SampleResult) (err : Option String) :
    buildCIController String SampleResult :=
  ⟨fun _ _ _ => (r, err)⟩

/-- The result `{"status":"created","name":"agent1-workload"}`. -/
def createdWorkload : SampleResult :=
  .workload (bytesOf "created") (bytesOf "agent1-workload")

/-- The request body of the specification's scenario. -/
def scenarioBody : Bytes :=
  bytesOf
    "\x7b\"agentName\":\"agent1\",\"projectName\":\"proj1\",\"orgId\":\"11111111-1111-1111-1111-111111111111\"\x7d"

/-- The payload of the specification's scenario. -/
def scenarioPayload : BuildCallbackPayload :=
  ⟨bytesOf "agent1", bytesOf "proj1", List.replicate 16 0x11⟩

/-- The truncated request body of the specification's scenario. -/
def truncatedBody : Bytes := bytesOf "\x7b\"agentName\":\"agent1\""

/-! # Theorems -/

/-! ## The recursion budget of the scanner -/

theorem skipSpace_length (input : Bytes) : (skipSpace input).length ≤ input.length := by
  induction input with
  | nil => simp [skipSpace]
  | cons c rest ih =>
    simp only [skipSpace]
    split
    · simp only [List.length_cons]; omega
    · simp

theorem skipSpace_cons_length (input rest : Bytes) (c : Nat) (h : skipSpace input = c :: rest) :
    rest.length < input.length := by
  have := skipSpace_length input
  rw [h] at this
  simp only [List.length_cons] at this
  omega

theorem consScanned_error (c : Nat) (r : Except DecodeError (Bytes × Bytes)) (e : DecodeError)
    (h : consScanned c r = .error e) : r = .error e := by
  cases r with
  | error e1 => simpa [consScanned] using h
  | ok x => cases x; simp [consScanned] at h

theorem consScanned_ok (c : Nat) (r : Except DecodeError (Bytes × Bytes)) (raw rest : Bytes)
    (h : consScanned c r = .ok (raw, rest)) : ∃ raw1, r = .ok (raw1, rest) := by
  cases r with
  | error e1 => simp [consScanned] at h
  | ok x =>
    obtain ⟨raw1, rest1⟩ := x
    simp only [consScanned, Except.ok.injEq, Prod.mk.injEq] at h
    exact ⟨raw1, by rw [h.2]⟩

theorem scanString_not_exhausted (input : Bytes) :
    ∀ st, scanString st input ≠ .error .exhausted := by
  induction input with
  | nil => intro st; cases st <;> simp [scanString]
  | cons c rest ih =>
    intro st h
    cases st <;> simp only [scanString] at h <;> split_ifs at h <;>
      first
        | exact ih _ (consScanned_error _ _ _ h)
        | cases h

theorem scanString_length (input : Bytes) :
    ∀ st raw rest, scanString st input = .ok (raw, rest) → rest.length < input.length := by
  induction input with
  | nil => intro st raw rest h; cases st <;> simp [scanString] at h
  | cons c tail ih =>
    intro st raw rest h
    have step : ∀ st1, consScanned c (scanString st1 tail) = .ok (raw, rest) →
        rest.length < (c :: tail).length := by
      intro st1 h1
      obtain ⟨raw1, h2⟩ := consScanned_ok _ _ _ _ h1
      have := ih st1 raw1 rest h2
      simp only [List.length_cons]; omega
    cases st <;> simp only [scanString] at h <;> split_ifs at h <;>
      first
        | exact step _ h
        | (simp only [Except.ok.injEq, Prod.mk.injEq] at h; rw [← h.2]; simp)

theorem scanNumber_not_exhausted (input : Bytes) :
    ∀ st, scanNumber st input ≠ .error .exhausted := by
  induction input with
  | nil => intro st; cases st <;> simp [scanNumber]
  | cons c rest ih =>
    intro st h
    cases st <;> simp only [scanNumber] at h <;> split_ifs at h <;>
      first
        | exact ih _ (consScanned_error _ _ _ h)
        | cases h

theorem scanNumber_length (input : Bytes) :
    ∀ st lit rest, scanNumber st input = .ok (lit, rest) → rest.length ≤ input.length := by
  induction input with
  | nil =>
    intro st lit rest h
    cases st <;> simp [scanNumber] at h <;> simp [← h.2]
  | cons c tail ih =>
    intro st lit rest h
    have step : ∀ st1, consScanned c (scanNumber st1 tail) = .ok (lit, rest) →
        rest.length ≤ (c :: tail).length := by
      intro st1 h1
      obtain ⟨raw1, h2⟩ := consScanned_ok _ _ _ _ h1
      have := ih st1 raw1 rest h2
      simp only [List.length_cons]; omega
    cases st <;> simp only [scanNumber] at h <;> split_ifs at h <;>
      first
        | exact step _ h
        | (simp only [Except.ok.injEq, Prod.mk.injEq] at h; rw [← h.2])

theorem scanLiteral_not_exhausted (expected : Bytes) :
    ∀ input, scanLiteral expected input ≠ .error .exhausted := by
  induction expected with
  | nil => intro input; simp [scanLiteral]
  | cons x xs ih =>
    intro input h
    cases input with
    | nil => simp [scanLiteral] at h
    | cons c rest =>
      simp only [scanLiteral] at h
      split at h
      · exact ih _ h
      · cases h

theorem scanLiteral_length (expected : Bytes) :
    ∀ input rest, scanLiteral expected input = .ok rest → rest.length ≤ input.length := by
  induction expected with
  | nil => intro input rest h; simp [scanLiteral] at h; simp [h]
  | cons x xs ih =>
    intro input rest h
    cases input with
    | nil => simp [scanLiteral] at h
    | cons c tail =>
      simp only [scanLiteral] at h
      split at h
      · have := ih _ _ h
        simp only [List.length_cons]; omega
      · cases h

theorem numberValue_spec (c : Nat) (input : Bytes) (st : NumState) :
    numberValue c (scanNumber st input) ≠ .error .exhausted ∧
    ∀ v rest, numberValue c (scanNumber st input) = .ok (v, rest) →
      rest.length ≤ input.length := by
  cases h : scanNumber st input with
  | error e =>
    refine ⟨?_, by intro v rest hv; simp [numberValue] at hv⟩
    intro he
    simp only [numberValue, Except.error.injEq] at he
    exact scanNumber_not_exhausted input st (by rw [h, he])
  | ok x =>
    obtain ⟨lit, rest1⟩ := x
    refine ⟨by simp [numberValue], ?_⟩
    intro v rest hv
    simp only [numberValue, Except.ok.injEq, Prod.mk.injEq] at hv
    rw [← hv.2]
    exact scanNumber_length input st lit rest1 h

theorem literalValue_spec (val : Value) (expected input : Bytes) :
    literalValue val (scanLiteral expected input) ≠ .error .exhausted ∧
    ∀ v rest, literalValue val (scanLiteral expected input) = .ok (v, rest) →
      rest.length ≤ input.length := by
  cases h : scanLiteral expected input with
  | error e =>
    refine ⟨?_, by intro v rest hv; simp [literalValue] at hv⟩
    intro he
    simp only [literalValue, Except.error.injEq] at he
    exact scanLiteral_not_exhausted expected input (by rw [h, he])
  | ok rest1 =>
    refine ⟨by simp [literalValue], ?_⟩
    intro v rest hv
    simp only [literalValue, Except.ok.injEq, Prod.mk.injEq] at hv
    rw [← hv.2]
    exact scanLiteral_length expected input rest1 h

theorem Settled.error {n : Nat} {e : DecodeError} (h : e ≠ .exhausted) :
    Settled n (.error e) :=
  ⟨fun he => h (by cases he; rfl), fun _ _ hv => (by cases hv)⟩

theorem Settled.ok {n : Nat} {v : Value} {rest : Bytes} (h : rest.length < n) :
    Settled n (.ok (v, rest)) :=
  ⟨fun he => (by cases he), fun _ _ hv => (by cases hv; exact h)⟩

theorem Settled.mono {m n : Nat} {r : Except DecodeError (Value × Bytes)} (h : Settled m r)
    (hmn : m ≤ n) : Settled n r :=
  ⟨h.1, fun v rest hv => Nat.lt_of_lt_of_le (h.2 v rest hv) hmn⟩

/-- With the budget `Goal.budget` asks for, `parse` never runs out of budget, and
it consumes at least one byte when it succeeds. -/
theorem parse_fuel : ∀ (fuel depth : Nat) (goal : Goal) (input : Bytes),
    goal.budget input.length ≤ fuel → Settled input.length (parse fuel depth goal input) := by
  intro fuel
  induction fuel with
  | zero =>
    intro depth goal input hb
    cases goal <;> simp [Goal.budget] at hb
  | succ n ih =>
    intro depth goal input hb
    cases goal with
    | value =>
      simp only [Goal.budget] at hb
      simp only [parse]
      split
      · exact Settled.error (by simp)
      · rename_i c rest hsk
        have hlen := skipSpace_cons_length input rest c hsk
        split_ifs
        · exact Settled.error (by simp)
        · split
          · exact Settled.error (by simp)
          · rename_i c1 rest1 hsk1
            have hlen1 := skipSpace_cons_length rest rest1 c1 hsk1
            split_ifs
            · exact Settled.ok (by omega)
            · refine (ih (depth + 1) (.members []) (c1 :: rest1) ?_).mono ?_
              · simp only [Goal.budget, List.length_cons]; omega
              · simp only [List.length_cons]; omega
        · exact Settled.error (by simp)
        · split
          · exact Settled.error (by simp)
          · rename_i c1 rest1 hsk1
            have hlen1 := skipSpace_cons_length rest rest1 c1 hsk1
            split_ifs
            · exact Settled.ok (by omega)
            · refine (ih (depth + 1) (.elements []) (c1 :: rest1) ?_).mono ?_
              · simp only [Goal.budget, List.length_cons]; omega
              · simp only [List.length_cons]; omega
        · split
          · rename_i raw rest1 hs
            exact Settled.ok (by have := scanString_length rest .inString raw rest1 hs; omega)
          · rename_i e hs
            exact Settled.error (fun he => scanString_not_exhausted rest .inString (by rw [hs, he]))
        all_goals
          first
            | exact Settled.error (by simp)
            | exact ⟨(numberValue_spec _ _ _).1,
                fun v r hv => by have := (numberValue_spec _ _ _).2 v r hv; omega⟩
            | exact ⟨(literalValue_spec _ _ _).1,
                fun v r hv => by have := (literalValue_spec _ _ _).2 v r hv; omega⟩
    | members acc =>
      simp only [Goal.budget] at hb
      simp only [parse]
      split
      · exact Settled.error (by simp)
      · rename_i c rest hsk
        have hlen := skipSpace_cons_length input rest c hsk
        split_ifs
        · exact Settled.error (by simp)
        · split
          · rename_i e hs
            exact Settled.error (fun he => scanString_not_exhausted rest .inString (by rw [hs, he]))
          · rename_i raw rest1 hs
            have hlen1 := scanString_length rest .inString raw rest1 hs
            split
            · exact Settled.error (by simp)
            · rename_i c2 rest2 hsk2
              have hlen2 := skipSpace_cons_length rest1 rest2 c2 hsk2
              split_ifs
              · exact Settled.error (by simp)
              · have hv := ih depth .value rest2 (by simp only [Goal.budget]; omega)
                split
                · rename_i e he
                  exact Settled.error (fun hx => hv.1 (by rw [he, hx]))
                · rename_i v rest3 hp
                  have hlen3 := hv.2 v rest3 hp
                  split
                  · exact Settled.error (by simp)
                  · rename_i c4 rest4 hsk4
                    have hlen4 := skipSpace_cons_length rest3 rest4 c4 hsk4
                    split_ifs
                    · exact (ih depth _ rest4 (by simp only [Goal.budget]; omega)).mono
                        (by omega)
                    · exact Settled.ok (by omega)
                    · exact Settled.error (by simp)
    | elements acc =>
      simp only [Goal.budget] at hb
      simp only [parse]
      have hv := ih depth .value input (by simp only [Goal.budget]; omega)
      split
      · rename_i e he
        exact Settled.error (fun hx => hv.1 (by rw [he, hx]))
      · rename_i v rest1 hp
        have hlen1 := hv.2 v rest1 hp
        split
        · exact Settled.error (by simp)
        · rename_i c2 rest2 hsk2
          have hlen2 := skipSpace_cons_length rest1 rest2 c2 hsk2
          split_ifs
          · exact (ih depth _ rest2 (by simp only [Goal.budget]; omega)).mono (by omega)
          · exact Settled.ok (by omega)
          · exact Settled.error (by simp)

/-- The scanner never runs out of budget on a request body: `readValue` gives
it enough. -/
theorem readValue_not_exhausted (body : Bytes) : readValue body ≠ .error .exhausted := by
  unfold readValue
  split
  · simp
  · exact (parse_fuel _ 0 .value body (by simp [Goal.budget])).1

/-! ## The text form of a UUID -/

theorem hexVal_hexDigit : ∀ n, n < 16 → hexVal (hexDigit n) = some n := by
  decide

theorem xtob_hexDigit (b : Nat) (h : b < 256) :
    xtob (hexDigit (b >>> 4)) (hexDigit (b &&& 0xF)) = some b := by
  have h1 : b >>> 4 < 16 := by rw [Nat.shiftRight_eq_div_pow]; omega
  have h2 : b &&& 0xF < 16 := by
    have : b &&& 0xF = b % 16 := Nat.and_pow_two_sub_one_eq_mod b 4
    omega
  have h3 : b >>> 4 * 16 + (b &&& 0xF) = b := by
    have : b &&& 0xF = b % 16 := Nat.and_pow_two_sub_one_eq_mod b 4
    rw [Nat.shiftRight_eq_div_pow, this]; omega
  simp only [xtob, hexVal_hexDigit _ h1, hexVal_hexDigit _ h2, h3]

/-- The parser reads the canonical text of every UUID back as that UUID. -/
theorem ParseBytes_String (u : UUID) (hlen : u.length = 16) (hb : ∀ b ∈ u, b < 256) :
    ParseBytes u.String = .ok u := by
  iterate 16 (rcases u with _ | ⟨_, u⟩; · simp at hlen)
  rcases u with _ | ⟨_, u⟩
  · simp only [List.mem_cons, List.mem_singleton, List.not_mem_nil, or_false, forall_eq_or_imp,
      forall_eq] at hb
    obtain ⟨h0, h1, h2, h3, h4, h5, h6, h7, h8, h9, h10, h11, h12, h13, h14, h15⟩ := hb
    simp [UUID.String, hexBytes, ParseBytes, parseDashed, hexPairsAt, dashedOffsets,
      xtob_hexDigit, h0, h1, h2, h3, h4, h5, h6, h7, h8, h9, h10, h11, h12, h13, h14, h15]
  · simp at hlen

/-! ## The decoder on an object -/

theorem saveError_payload (d : DecodeState) (e : DecodeError) :
    (d.saveError e).payload = d.payload := by
  unfold DecodeState.saveError
  cases d.savedError <;> rfl

/-- An accepted member is stored without touching the saved error. -/
theorem storeMember_accepted (d : DecodeState) (k : Bytes) (v : Value)
    (h : accepted (k, v) = true) :
    ∃ d1, storeMember d k v = .ok d1 ∧ d1.savedError = d.savedError := by
  unfold accepted at h
  unfold storeMember
  cases hf : findField k with
  | none => exact ⟨d, rfl, rfl⟩
  | some f =>
    rw [hf] at h
    cases f <;> cases v <;> simp [Field.accepts] at h ⊢
    case OrgId.string s =>
      cases hp : ParseBytes s with
      | ok u => simp
      | error e => simp [hp] at h

/-- An object all of whose members are accepted decodes, with no error saved on
the way. -/
theorem storeMembers_accepted (ms : List (Bytes × Value)) :
    ∀ d, (∀ m ∈ ms, accepted m = true) →
      ∃ d1, storeMembers d ms = .ok d1 ∧ d1.savedError = d.savedError := by
  induction ms with
  | nil => intro d _; exact ⟨d, rfl, rfl⟩
  | cons m rest ih =>
    intro d h
    obtain ⟨k, v⟩ := m
    obtain ⟨d2, h2, e2⟩ := storeMember_accepted d k v (h (k, v) (List.mem_cons_self _ _))
    obtain ⟨d1, h1, e1⟩ := ih d2 (fun m hm => h m (List.mem_cons_of_mem _ hm))
    exact ⟨d1, by simp only [storeMembers, h2, h1], e1.trans e2⟩

theorem parseDashed_not_exhausted (b : Bytes) : parseDashed b ≠ .error .exhausted := by
  unfold parseDashed
  split_ifs
  · simp
  · split <;> simp

theorem ParseBytes_not_exhausted (b : Bytes) : ParseBytes b ≠ .error .exhausted := by
  unfold ParseBytes
  split_ifs
  · exact parseDashed_not_exhausted _
  · exact parseDashed_not_exhausted _
  · simp
  · exact parseDashed_not_exhausted _
  · split <;> simp
  · simp

/-- Storing a member neither returns nor saves a spent budget. -/
theorem storeMember_not_exhausted (d : DecodeState) (k : Bytes) (v : Value)
    (hd : d.savedError ≠ some .exhausted) :
    storeMember d k v ≠ .error .exhausted ∧
      ∀ d1, storeMember d k v = .ok d1 → d1.savedError ≠ some .exhausted := by
  have hsave : ∀ val field,
      (d.saveError (.unmarshalType val field)).savedError ≠ some .exhausted := by
    intro val field
    unfold DecodeState.saveError
    cases hs : d.savedError with
    | none => simp
    | some e => simp only [hs]; rw [hs] at hd; exact hd
  unfold storeMember
  cases findField k with
  | none => exact ⟨by simp, fun d1 h => by cases h; exact hd⟩
  | some f =>
    cases f <;> cases v <;>
      first
        | exact ⟨by simp, fun d1 h => by cases h; exact hd⟩
        | exact ⟨by simp, fun d1 h => by cases h; exact hsave _ _⟩
        | skip
    rename_i s
    simp only []
    cases hp : ParseBytes s with
    | ok u => exact ⟨by simp, fun d1 h => by cases h; exact hd⟩
    | error e =>
      refine ⟨?_, fun d1 h => by cases h⟩
      intro he
      simp only [Except.error.injEq] at he
      exact ParseBytes_not_exhausted s (by rw [hp, he])

theorem storeMembers_not_exhausted (ms : List (Bytes × Value)) :
    ∀ d, d.savedError ≠ some .exhausted →
      storeMembers d ms ≠ .error .exhausted ∧
        ∀ d1, storeMembers d ms = .ok d1 → d1.savedError ≠ some .exhausted := by
  induction ms with
  | nil => intro d hd; exact ⟨by simp [storeMembers], fun d1 h => by cases h; exact hd⟩
  | cons m rest ih =>
    intro d hd
    obtain ⟨k, v⟩ := m
    have h1 := storeMember_not_exhausted d k v hd
    simp only [storeMembers]
    cases hs : storeMember d k v with
    | error e =>
      refine ⟨?_, fun d1 h => by cases h⟩
      intro he
      simp only [Except.error.injEq] at he
      exact h1.1 (by rw [hs, he])
    | ok d2 => exact ih d2 (h1.2 d2 hs)

/-- No request body makes `Decode` report a spent budget: its errors are the
errors of the Go decoder. -/
theorem Decode_not_exhausted (body : Bytes) : Decode body ≠ .error .exhausted := by
  unfold Decode
  cases hr : readValue body with
  | error e =>
    intro he
    simp only [Except.error.injEq] at he
    exact readValue_not_exhausted body (by rw [hr, he])
  | ok vr =>
    obtain ⟨v, rest⟩ := vr
    cases v <;> simp only [unmarshal] <;> try simp
    rename_i ms
    have h := storeMembers_not_exhausted ms ⟨BuildCallbackPayload.zero, none⟩ (by simp)
    cases hs : storeMembers ⟨BuildCallbackPayload.zero, none⟩ ms with
    | error e =>
      intro he
      simp only [Except.error.injEq] at he
      exact h.1 (by rw [hs, he])
    | ok d =>
      simp only []
      cases hse : d.savedError with
      | none => simp
      | some e =>
        intro he
        simp only [Except.error.injEq] at he
        exact h.2 d hs (by rw [hse, he])

/-- A member whose key selects another field leaves the field as it is. -/
theorem storeMember_other (d d1 : DecodeState) (k : Bytes) (v : Value) (f : Field)
    (h : storeMember d k v = .ok d1) (hf : findField k ≠ some f) :
    d1.payload.get f = d.payload.get f := by
  unfold storeMember at h
  cases hk : findField k with
  | none => simp [hk] at h; subst h; rfl
  | some g =>
    rw [hk] at h hf
    cases g <;> cases v <;> cases f <;> simp at h hf <;>
      first
        | (subst h; rfl)
        | (subst h; simp [saveError_payload])
        | skip
    all_goals
      rename_i s
      cases hp : ParseBytes s with
      | ok u => simp [hp] at h; subst h; rfl
      | error e => simp [hp] at h

/-- A field no member selects is left as it was. -/
theorem storeMembers_frame (f : Field) (ms : List (Bytes × Value)) :
    ∀ d d1, storeMembers d ms = .ok d1 → mentions ms f = false →
      d1.payload.get f = d.payload.get f := by
  induction ms with
  | nil => intro d d1 h _; simp [storeMembers] at h; subst h; rfl
  | cons m rest ih =>
    intro d d1 h hm
    obtain ⟨k, v⟩ := m
    simp only [mentions, List.any_cons, Bool.or_eq_false_iff] at hm
    simp only [storeMembers] at h
    cases hs : storeMember d k v with
    | error e => simp [hs] at h
    | ok d2 =>
      simp only [hs] at h
      have hk : findField k ≠ some f := by
        have := hm.1
        rw [beq_eq_false_iff_ne] at this
        exact this
      rw [ih d2 d1 h hm.2, storeMember_other d d2 k v f hs hk]

/-- How `Decode` goes on an object. -/
theorem Decode_object (body rest : Bytes) (ms : List (Bytes × Value))
    (h : readValue body = .ok (.object ms, rest)) :
    Decode body =
      match storeMembers ⟨BuildCallbackPayload.zero, none⟩ ms with
      | .ok d =>
        match d.savedError with
        | none => .ok d.payload
        | some e => .error e
      | .error e => .error e := by
  simp only [Decode, h, unmarshal]

/-- An object all of whose members are accepted decodes, to the payload
`storeMembers` leaves. -/
theorem Decode_accepted (body rest : Bytes) (ms : List (Bytes × Value))
    (h : readValue body = .ok (.object ms, rest)) (hacc : ∀ m ∈ ms, accepted m = true) :
    ∃ d, storeMembers ⟨BuildCallbackPayload.zero, none⟩ ms = .ok d ∧ Decode body = .ok d.payload := by
  obtain ⟨d, hd, he⟩ := storeMembers_accepted ms ⟨BuildCallbackPayload.zero, none⟩ hacc
  refine ⟨d, hd, ?_⟩
  rw [Decode_object body rest ms h, hd]
  simp only [] at he
  simp only [he]

/-- A body that does not decode is a rejected one. -/
theorem Rejected_of_Decode_error (body : Bytes) (e : DecodeError) (h : Decode body = .error e) :
    Rejected body := by
  cases hr : readValue body with
  | error e1 => exact .malformed hr
  | ok vr =>
    obtain ⟨v, rest⟩ := vr
    cases v with
    | null => simp [Decode, hr, unmarshal] at h
    | bool b => exact .notObject hr rfl rfl
    | number l => exact .notObject hr rfl rfl
    | string s => exact .notObject hr rfl rfl
    | array es => exact .notObject hr rfl rfl
    | object ms =>
      by_cases hall : ∀ m ∈ ms, accepted m = true
      · obtain ⟨d, _, hd⟩ := Decode_accepted body rest ms hr hall
        rw [hd] at h; cases h
      · push_neg at hall
        obtain ⟨⟨k, v⟩, hmem, hacc⟩ := hall
        have hacc : accepted (k, v) = false := by simpa using hacc
        unfold accepted at hacc
        cases hf : findField k with
        | none => simp [hf] at hacc
        | some f =>
          simp only [hf] at hacc
          cases f with
          | AgentName =>
            refine .badName hr hmem (Or.inl hf) ?_ ?_ <;>
              cases v <;> simp [Field.accepts] at hacc <;> rfl
          | ProjectName =>
            refine .badName hr hmem (Or.inr hf) ?_ ?_ <;>
              cases v <;> simp [Field.accepts] at hacc <;> rfl
          | OrgId =>
            refine .badOrgId hr hmem hf ?_ ?_
            · cases v <;> simp [Field.accepts] at hacc <;> rfl
            · intro s u hv hp
              subst hv
              simp [Field.accepts, hp] at hacc

/-! ## The traces of the handler -/

/-- The encoded error body with the given message. -/
theorem marshal_invalid {R : Type} [Marshaler R] :
    marshal (R := R) (.stringMap [(bytesOf "error", bytesOf "Invalid request body")]) =
      some (bytesOf "\x7b\"error\":\"Invalid request body\"\x7d") := rfl

theorem marshal_failed {R : Type} [Marshaler R] :
    marshal (R := R) (.stringMap [(bytesOf "error", bytesOf "Failed to process build callback")]) =
      some (bytesOf "\x7b\"error\":\"Failed to process build callback\"\x7d") := rfl

/-- The calls `writeJSONResponse` makes. -/
theorem writeJSONResponse_eq {E R : Type} [Marshaler R] (w : Trace E) (statusCode : Int)
    (data : Data R) :
    writeJSONResponse w statusCode data =
      w ++ .headerSet "Content-Type" "application/json" :: .writeHeader statusCode ::
        (match marshal data with
         | some b => [.write (b ++ [10])]
         | none => []) := by
  unfold writeJSONResponse Encode
  cases marshal data <;> simp

/-- The trace of a request whose body does not decode. -/
theorem handle_decode_error {E R : Type} [Marshaler R] (b : buildCIController E R)
    (w : Trace E) (body : Bytes) (err : DecodeError) (h : Decode body = .error err) :
    HandleBuildCallback b w body =
      w ++ [.decode body,
        .logError "HandleBuildCallback: failed to decode request body" (.inl err),
        .headerSet "Content-Type" "application/json",
        .writeHeader 400,
        .write (bytesOf "\x7b\"error\":\"Invalid request body\"\x7d\n")] := by
  unfold HandleBuildCallback
  simp only [h, writeJSONResponse_eq, marshal_invalid, StatusBadRequest]
  simp
  rfl

/-- The trace of a request whose body decodes and whose service call fails. -/
theorem handle_service_error {E R : Type} [Marshaler R] (b : buildCIController E R)
    (w : Trace E) (body : Bytes) (p : BuildCallbackPayload) (r : R) (err : E)
    (h : Decode body = .ok p)
    (hs : b.buildCIManagerService p.OrgId p.ProjectName p.AgentName = (r, some err)) :
    HandleBuildCallback b w body =
      w ++ [.decode body,
        .logInfo "Build callback received" p,
        .serviceCall p.OrgId p.ProjectName p.AgentName (some err),
        .logError "HandleBuildCallback: failed to process callback" (.inr err),
        .headerSet "Content-Type" "application/json",
        .writeHeader 500,
        .write (bytesOf "\x7b\"error\":\"Failed to process build callback\"\x7d\n")] := by
  unfold HandleBuildCallback
  simp only [h, hs, writeJSONResponse_eq, marshal_failed, StatusInternalServerError]
  simp
  rfl

/-- The trace of a request whose body decodes and whose service call succeeds. -/
theorem handle_success {E R : Type} [Marshaler R] (b : buildCIController E R)
    (w : Trace E) (body : Bytes) (p : BuildCallbackPayload) (r : R)
    (h : Decode body = .ok p)
    (hs : b.buildCIManagerService p.OrgId p.ProjectName p.AgentName = (r, none)) :
    HandleBuildCallback b w body =
      w ++ .decode body ::
        .logInfo "Build callback received" p ::
        .serviceCall p.OrgId p.ProjectName p.AgentName none ::
        .headerSet "Content-Type" "application/json" ::
        .writeHeader 200 ::
        (match Marshaler.marshalJSON r with
         | some s => [.write (s ++ [10])]
         | none => []) := by
  unfold HandleBuildCallback
  simp only [h, hs, writeJSONResponse_eq, marshal, StatusOK]
  simp

/-- After a successful decode the handler either gets an error from the service
or a result, and its trace is the corresponding one. -/
theorem handle_decoded {E R : Type} [Marshaler R] (b : buildCIController E R)
    (body : Bytes) (p : BuildCallbackPayload) (h : Decode body = .ok p) :
    (∃ r err, b.buildCIManagerService p.OrgId p.ProjectName p.AgentName = (r, some err) ∧
      HandleBuildCallback b [] body =
        [.decode body,
          .logInfo "Build callback received" p,
          .serviceCall p.OrgId p.ProjectName p.AgentName (some err),
          .logError "HandleBuildCallback: failed to process callback" (.inr err),
          .headerSet "Content-Type" "application/json",
          .writeHeader 500,
          .write (bytesOf "\x7b\"error\":\"Failed to process build callback\"\x7d\n")]) ∨
    (∃ r, b.buildCIManagerService p.OrgId p.ProjectName p.AgentName = (r, none) ∧
      HandleBuildCallback b [] body =
        .decode body ::
        .logInfo "Build callback received" p ::
        .serviceCall p.OrgId p.ProjectName p.AgentName none ::
        .headerSet "Content-Type" "application/json" ::
        .writeHeader 200 ::
        (match Marshaler.marshalJSON r with
         | some s => [.write (s ++ [10])]
         | none => [])) := by
  cases hs : b.buildCIManagerService p.OrgId p.ProjectName p.AgentName with
  | mk r oe =>
    cases oe with
    | some err => exact Or.inl ⟨r, err, rfl, by simpa using handle_service_error b [] body p r err h hs⟩
    | none => exact Or.inr ⟨r, rfl, by simpa using handle_success b [] body p r h hs⟩

/-- The service calls of a request whose body decodes: exactly one, with the
payload's fields in the order organization, project, agent. -/
theorem serviceCalls_decoded {E R : Type} [Marshaler R] (b : buildCIController E R)
    (body : Bytes) (p : BuildCallbackPayload) (h : Decode body = .ok p) :
    serviceCalls (HandleBuildCallback b [] body) = [(p.OrgId, p.ProjectName, p.AgentName)] := by
  rcases handle_decoded b body p h with ⟨r, err, _, ht⟩ | ⟨r, _, ht⟩
  · rw [ht]; rfl
  · rw [ht]; cases Marshaler.marshalJSON r <;> rfl

/-- The status of a request whose body decodes is 200 or 500. -/
theorem status_decoded {E R : Type} [Marshaler R] (b : buildCIController E R)
    (body : Bytes) (p : BuildCallbackPayload) (h : Decode body = .ok p) :
    (response (HandleBuildCallback b [] body)).statusCode = 200 ∨
      (response (HandleBuildCallback b [] body)).statusCode = 500 := by
  rcases handle_decoded b body p h with ⟨r, err, _, ht⟩ | ⟨r, _, ht⟩
  · rw [ht]; exact Or.inr rfl
  · rw [ht]; cases Marshaler.marshalJSON r <;> exact Or.inl rfl

/-! ## The sample inputs -/

/-- C1: when the request body fails to decode, whatever the decode error is, the
handler writes status 400 with the JSON body `{"error":"Invalid request body"}`
and makes no call of the downstream service. The body is that text as the
encoder emits it, ended by a newline; read as JSON it is the object with the one
member `error`. -/
theorem decode_failure_responds_400 {E R : Type} [Marshaler R] (b : buildCIController E R)
    (body : Bytes) (err : DecodeError) (h : Decode body = .error err) :
    (response (HandleBuildCallback b [] body)).statusCode = 400 ∧
    (response (HandleBuildCallback b [] body)).body =
      bytesOf "\x7b\"error\":\"Invalid request body\"\x7d\n" ∧
    jsonValue (response (HandleBuildCallback b [] body)).body =
      some (.object [(bytesOf "error", .string (bytesOf "Invalid request body"))]) ∧
    serviceCalls (HandleBuildCallback b [] body) = [] := by
  rw [handle_decode_error b [] body err h]
  exact ⟨rfl, rfl, rfl, rfl⟩

/-- C1 on the truncated body of the specification's scenario. -/
theorem decode_failure_responds_400_witness :
    Decode truncatedBody = .error .unexpectedEOF ∧
    (response (HandleBuildCallback (sampleController createdWorkload none) [] truncatedBody)).statusCode
      = 400 ∧
    (response (HandleBuildCallback (sampleController createdWorkload none) [] truncatedBody)).body =
      bytesOf "\x7b\"error\":\"Invalid request body\"\x7d\n" ∧
    jsonValue
        (response (HandleBuildCallback (sampleController createdWorkload none) []
          truncatedBody)).body =
      some (.object [(bytesOf "error", .string (bytesOf "Invalid request body"))]) ∧
    serviceCalls (HandleBuildCallback (sampleController createdWorkload none) [] truncatedBody) = [] :=
  ⟨rfl, decode_failure_responds_400 (sampleController createdWorkload none) truncatedBody
    .unexpectedEOF rfl⟩

/-- C2: when the body decodes and the downstream service returns an error, of
any kind and with any result next to it, the handler writes status 500 with the
JSON body `{"error":"Failed to process build callback"}`. The body is that
text as the encoder emits it, ended by a newline; read as JSON it is the object
with the one member `error`. -/
theorem service_error_responds_500 {E R : Type} [Marshaler R] (b : buildCIController E R)
    (body : Bytes) (p : BuildCallbackPayload) (r : R) (err : E)
    (h : Decode body = .ok p)
    (hs : b.buildCIManagerService p.OrgId p.ProjectName p.AgentName = (r, some err)) :
    (response (HandleBuildCallback b [] body)).statusCode = 500 ∧
    (response (HandleBuildCallback b [] body)).body =
      bytesOf "\x7b\"error\":\"Failed to process build callback\"\x7d\n" ∧
    jsonValue (response (HandleBuildCallback b [] body)).body =
      some (.object [(bytesOf "error", .string (bytesOf "Failed to process build callback"))]) := by
  rw [handle_service_error b [] body p r err h hs]
  exact ⟨rfl, rfl, rfl⟩

/-- C2 on the body of the specification's scenario and a service that fails. -/
theorem service_error_responds_500_witness :
    Decode scenarioBody = .ok scenarioPayload ∧
    (response (HandleBuildCallback (sampleController createdWorkload (some "boom")) []
      scenarioBody)).statusCode = 500 ∧
    (response (HandleBuildCallback (sampleController createdWorkload (some "boom")) []
      scenarioBody)).body = bytesOf "\x7b\"error\":\"Failed to process build callback\"\x7d\n" ∧
    jsonValue
        (response (HandleBuildCallback (sampleController createdWorkload (some "boom")) []
          scenarioBody)).body =
      some (.object [(bytesOf "error", .string (bytesOf "Failed to process build callback"))]) :=
  ⟨rfl, service_error_responds_500 (sampleController createdWorkload (some "boom")) scenarioBody
    scenarioPayload createdWorkload "boom" rfl rfl⟩

/-- C5: every response of the handler, on the 400, the 500 and the 200 path,
is sent with the header `Content-Type: application/json`: the first call on the
response writer sets the header, the second writes the status line, so the
header is part of what is sent. -/
theorem content_type_on_every_response {E R : Type} [Marshaler R] (b : buildCIController E R)
    (body : Bytes) :
    (response (HandleBuildCallback b [] body)).wroteHeader = true ∧
    (response (HandleBuildCallback b [] body)).sentHeader =
      [("Content-Type", "application/json")] ∧
    ∃ statusCode rest,
      (statusCode = 400 ∨ statusCode = 500 ∨ statusCode = 200) ∧
      writerCalls (HandleBuildCallback b [] body) =
        .headerSet "Content-Type" "application/json" :: .writeHeader statusCode :: rest := by
  cases h : Decode body with
  | error err =>
    have ht := handle_decode_error b [] body err h
    simp only [List.nil_append] at ht
    rw [ht]
    exact ⟨rfl, rfl, 400, _, Or.inl rfl, rfl⟩
  | ok p =>
    rcases handle_decoded b body p h with ⟨r, err, _, ht⟩ | ⟨r, _, ht⟩
    · rw [ht]
      exact ⟨rfl, rfl, 500, _, Or.inr (Or.inl rfl), rfl⟩
    · rw [ht]
      cases Marshaler.marshalJSON r <;>
        exact ⟨rfl, rfl, 200, _, Or.inr (Or.inr rfl), rfl⟩

/-- C6: the response on an error path is a constant. Two runs that both fail to
decode, whatever the bodies and the decode errors, and two runs that both get an
error from the downstream service, whatever the errors and the results next to
them, leave the same response: status, headers and body. -/
theorem error_responses_do_not_depend_on_the_error {E R : Type} [Marshaler R]
    (b1 b2 : buildCIController E R) (body1 body2 : Bytes)
    (h : (∃ e1 e2, Decode body1 = .error e1 ∧ Decode body2 = .error e2) ∨
      (∃ p1 p2 r1 r2 e1 e2, Decode body1 = .ok p1 ∧ Decode body2 = .ok p2 ∧
        b1.buildCIManagerService p1.OrgId p1.ProjectName p1.AgentName = (r1, some e1) ∧
        b2.buildCIManagerService p2.OrgId p2.ProjectName p2.AgentName = (r2, some e2))) :
    response (HandleBuildCallback b1 [] body1) = response (HandleBuildCallback b2 [] body2) := by
  rcases h with ⟨e1, e2, h1, h2⟩ | ⟨p1, p2, r1, r2, e1, e2, h1, h2, hs1, hs2⟩
  · rw [handle_decode_error b1 [] body1 e1 h1, handle_decode_error b2 [] body2 e2 h2]
    rfl
  · rw [handle_service_error b1 [] body1 p1 r1 e1 h1 hs1,
      handle_service_error b2 [] body2 p2 r2 e2 h2 hs2]
    rfl

/-- C6 on two failing decodes (a truncated object, an array) and on two failing
service calls with different errors and results. -/
theorem error_responses_do_not_depend_on_the_error_witness :
    response (HandleBuildCallback (sampleController createdWorkload none) [] truncatedBody) =
      response (HandleBuildCallback (sampleController .channel (some "boom")) [] (bytesOf "[1]")) ∧
    response (HandleBuildCallback (sampleController createdWorkload (some "boom")) []
        scenarioBody) =
      response (HandleBuildCallback (sampleController .channel (some "connection refused")) []
        (bytesOf "\x7b\x7d")) :=
  ⟨error_responses_do_not_depend_on_the_error _ _ truncatedBody (bytesOf "[1]")
      (Or.inl ⟨.unexpectedEOF, .unmarshalType "array" "", rfl, rfl⟩),
    error_responses_do_not_depend_on_the_error
      (sampleController createdWorkload (some "boom"))
      (sampleController .channel (some "connection refused")) scenarioBody (bytesOf "\x7b\x7d")
      (Or.inr ⟨scenarioPayload, BuildCallbackPayload.zero, createdWorkload, .channel, "boom",
        "connection refused", rfl, rfl, rfl, rfl⟩)⟩

/-- C8, as stated, fails: the bodies `{}` and
`{"agentName":"agent1","projectName":"proj1"}` are well-formed objects that
omit required fields, yet they decode, the omitted fields at their zero values;
the service is called with them and the status is 200, not 400. -/
theorem omitted_field_counterexample :
    Valid (bytesOf "\x7b\x7d") = true ∧
    Decode (bytesOf "\x7b\x7d") = .ok ⟨[], [], UUID.Nil⟩ ∧
    serviceCalls (HandleBuildCallback (sampleController createdWorkload none) []
      (bytesOf "\x7b\x7d")) = [(UUID.Nil, [], [])] ∧
    (response (HandleBuildCallback (sampleController createdWorkload none) []
      (bytesOf "\x7b\x7d"))).statusCode = 200 ∧
    Valid (bytesOf "\x7b\"agentName\":\"agent1\",\"projectName\":\"proj1\"\x7d") = true ∧
    Decode (bytesOf "\x7b\"agentName\":\"agent1\",\"projectName\":\"proj1\"\x7d") =
      .ok ⟨bytesOf "agent1", bytesOf "proj1", UUID.Nil⟩ ∧
    serviceCalls (HandleBuildCallback (sampleController createdWorkload none) []
      (bytesOf "\x7b\"agentName\":\"agent1\",\"projectName\":\"proj1\"\x7d")) =
      [(UUID.Nil, bytesOf "proj1", bytesOf "agent1")] ∧
    (response (HandleBuildCallback (sampleController createdWorkload none) []
      (bytesOf "\x7b\"agentName\":\"agent1\",\"projectName\":\"proj1\"\x7d"))).statusCode = 200 :=
  ⟨rfl, rfl, rfl, rfl, rfl, rfl, rfl, rfl⟩

/-- C8, amended: for every body whose JSON value is an object in which the
fields that are present carry values the decoder accepts, decoding succeeds
whichever of `agentName`, `projectName` and `orgId` are omitted; an omitted
field has its zero value (the empty string, the nil UUID); the downstream
service is called once, with the decoded fields; and the status is the 200 or
500 the service's answer leads to, not 400. -/
theorem omitted_field_is_zero {E R : Type} [Marshaler R] (b : buildCIController E R)
    (body rest : Bytes) (ms : List (Bytes × Value))
    (hr : readValue body = .ok (.object ms, rest))
    (hacc : ∀ m ∈ ms, accepted m = true) :
    ∃ p, Decode body = .ok p ∧
      (mentions ms .AgentName = false → p.AgentName = []) ∧
      (mentions ms .ProjectName = false → p.ProjectName = []) ∧
      (mentions ms .OrgId = false → p.OrgId = UUID.Nil) ∧
      serviceCalls (HandleBuildCallback b [] body) = [(p.OrgId, p.ProjectName, p.AgentName)] ∧
      ((response (HandleBuildCallback b [] body)).statusCode = 200 ∨
        (response (HandleBuildCallback b [] body)).statusCode = 500) := by
  obtain ⟨d, hd, hdec⟩ := Decode_accepted body rest ms hr hacc
  exact ⟨d.payload, hdec,
    fun hm => storeMembers_frame .AgentName ms _ d hd hm,
    fun hm => storeMembers_frame .ProjectName ms _ d hd hm,
    fun hm => storeMembers_frame .OrgId ms _ d hd hm,
    serviceCalls_decoded b body _ hdec, status_decoded b body _ hdec⟩

/-- C8, amended, on a body without `orgId`. -/
theorem omitted_field_is_zero_witness :
    ∃ p, Decode (bytesOf "\x7b\"agentName\":\"agent1\",\"projectName\":\"proj1\"\x7d") = .ok p ∧
      (mentions [(bytesOf "agentName", Value.string (bytesOf "agent1")),
          (bytesOf "projectName", .string (bytesOf "proj1"))] .AgentName = false →
        p.AgentName = []) ∧
      (mentions [(bytesOf "agentName", Value.string (bytesOf "agent1")),
          (bytesOf "projectName", .string (bytesOf "proj1"))] .ProjectName = false →
        p.ProjectName = []) ∧
      (mentions [(bytesOf "agentName", Value.string (bytesOf "agent1")),
          (bytesOf "projectName", .string (bytesOf "proj1"))] .OrgId = false →
        p.OrgId = UUID.Nil) ∧
      serviceCalls (HandleBuildCallback (sampleController createdWorkload none) []
        (bytesOf "\x7b\"agentName\":\"agent1\",\"projectName\":\"proj1\"\x7d")) =
        [(p.OrgId, p.ProjectName, p.AgentName)] ∧
      ((response (HandleBuildCallback (sampleController createdWorkload none) []
        (bytesOf "\x7b\"agentName\":\"agent1\",\"projectName\":\"proj1\"\x7d"))).statusCode = 200 ∨
       (response (HandleBuildCallback (sampleController createdWorkload none) []
        (bytesOf "\x7b\"agentName\":\"agent1\",\"projectName\":\"proj1\"\x7d"))).statusCode = 500) :=
  omitted_field_is_zero (sampleController createdWorkload none)
    (bytesOf "\x7b\"agentName\":\"agent1\",\"projectName\":\"proj1\"\x7d") []
    [(bytesOf "agentName", Value.string (bytesOf "agent1")),
      (bytesOf "projectName", .string (bytesOf "proj1"))]
    rfl
    (by
      intro m hm
      simp only [List.mem_cons, List.mem_singleton, List.not_mem_nil, or_false] at hm
      rcases hm with rfl | rfl <;> rfl)

end BuildCI
